import Mathlib

deriving instance DecidableEq for Except

/-!
Verification of the resilient inference client in
`examples/bedrock-custom-model-import/br-custom-model-import-example.ipynb`:
the chat-template renderer `format_messages` and the bounded-retry invocation
wrapper `send_prompt`, embedded shallowly from the notebook's Python source.
-/

/-- A wall-clock instant, as far as `datetime.now()` is observed by the code:
the renderer only formats `%d %b %Y`, so only the calendar fields matter, but
we carry the time-of-day fields to state day-level determinism honestly. -/
structure DateTime where
  year : Nat
  month : Nat
  day : Nat
  hour : Nat
  minute : Nat
  second : Nat
deriving DecidableEq

/-- The decimal digit character of `n % 10` (code points 48..57). -/
def decChar (n : Nat) : Char := Char.ofNat (48 + n % 10)

/-- Decimal rendering of a natural number, fueled so that it reduces in the
kernel.  `natDecimalAux (n+1) n` prints `n` in base 10, most significant
digit first. -/
def natDecimalAux : Nat → Nat → List Char
  | 0, _ => []
  | fuel + 1, n => if n < 10 then [decChar n] else natDecimalAux fuel (n / 10) ++ [decChar n]

/-- Decimal rendering of a natural number (the `%Y` field of `strftime`). -/
def natDecimal (n : Nat) : List Char := natDecimalAux (n + 1) n

/-- The `%b` abbreviated month name of `strftime`. -/
def month_abbrev : Nat → String
  | 1 => "Jan" | 2 => "Feb" | 3 => "Mar" | 4 => "Apr" | 5 => "May" | 6 => "Jun"
  | 7 => "Jul" | 8 => "Aug" | 9 => "Sep" | 10 => "Oct" | 11 => "Nov" | 12 => "Dec"
  | _ => "Unk"

/-- The `%d` zero-padded day-of-month field of `strftime` (days are 1..31,
so two digits suffice). -/
def two_digit (n : Nat) : String := ⟨[decChar (n / 10), decChar n]⟩

/-- `datetime.now().strftime('%d %b %Y')` from the source. -/
def strftime_d_b_Y (t : DateTime) : String :=
  two_digit t.day ++ " " ++ month_abbrev t.month ++ " " ++ ⟨natDecimal t.year⟩

/-- One chat message: the Python dict `{'role': ..., 'content': ...}`.
The source accesses `entry['role']` unconditionally and tests
`'content' in entry`, so `role` is always present and `content` is optional. -/
structure Message where
  role : String
  content : Option String
deriving DecidableEq

/-- The `system_prefix` local of `format_messages`:
`f"\n\nCutting Knowledge Date: December 2024\nToday Date: {datetime.now().strftime('%d %b %Y')}\n\n"`. -/
def system_preamble (now : DateTime) : String :=
  "\n\nCutting Knowledge Date: December 2024\nToday Date: " ++ strftime_d_b_Y now ++ "\n\n"

/-- One iteration of the `for i, entry in enumerate(messages)` loop body of
`format_messages`: the text appended to `output` for `entry`, or the
`KeyError` raised when a system entry has no `'content'` key. -/
def render_entry (now : DateTime) (entry : Message) : Except String String :=
  let header := "<|start_header_id|>" ++ entry.role ++ "<|end_header_id|>"
  if entry.role = "system" then
    match entry.content with
    | some c => Except.ok (header ++ system_preamble now ++ c ++ "<|eot_id|>")
    | none => Except.error "KeyError: content"
  else if entry.role ≠ "system" ∧ entry.content.isSome then
    Except.ok (header ++ "\n\n" ++ entry.content.getD "" ++ "<|eot_id|>")
  else
    Except.ok header

/-- The whole message loop of `format_messages`: the concatenation of the
per-entry blocks, in order. -/
def render_messages (now : DateTime) : List Message → Except String String
  | [] => Except.ok ""
  | entry :: rest => do
    let piece ← render_entry now entry
    let restOut ← render_messages now rest
    pure (piece ++ restOut)

/-- `format_messages` from the source: begin-of-text marker, one block per
message, and the trailing open assistant header. -/
def format_messages (now : DateTime) (messages : List Message) : Except String String := do
  let body ← render_messages now messages
  pure ("<|begin_of_text|>" ++ body ++ "<|start_header_id|>assistant<|end_header_id|>\n")

/-- The request body `json.dumps({'prompt': ..., 'temperature': ...,
'max_gen_len': ..., 'top_p': ...})` of `send_prompt`, modelled as a record
with exactly those four fields.  Python floats are modelled as rationals;
no arithmetic is ever performed on them. -/
structure InvocationRequest where
  prompt : String
  temperature : ℚ
  max_gen_len : Nat
  top_p : ℚ
deriving DecidableEq

/-- Observable behaviour of one `send_prompt` call:
* `attempts`  — how many times the body of the `try` block ran;
* `sent`      — the request body passed to `invoke_model` at each attempt, in order;
* `logs`      — the `print(f"Attempt {attempt + 1} failed: ...")` events,
                as (1-based attempt number, raised error) pairs;
* `sleeps`    — how many `time.sleep(30)` calls were made;
* `outcome`   — the returned decoded payload, or the terminal
                `Exception("Failed to get response after maximum retries")`. -/
structure Trace (ε ρ : Type) where
  attempts : Nat
  sent : List InvocationRequest
  logs : List (Nat × ε)
  sleeps : Nat
  outcome : Except String ρ

/-- One attempt of the `try` block: `invoke_model` (together with
`response['body'].read().decode('utf-8')`) produces a body string or raises,
then `json.loads` decodes it or raises.  The environment is modelled by
`invoke`, indexed by the attempt number so that per-attempt outcomes can be
described; `ε` ranges over every Python exception class. -/
def attempt_once {ε ρ : Type} (invoke : InvocationRequest → Nat → Except ε String)
    (json_loads : String → Except ε ρ) (req : InvocationRequest) (i : Nat) : Except ε ρ :=
  (invoke req i).bind json_loads

/-- The `while attempt < max_retries` loop of `send_prompt`, including the
final `raise Exception(...)` after the loop.  On failure the 1-based attempt
number and error are logged, the counter advances, and a sleep happens iff
another attempt is still allowed. -/
def send_loop {ε ρ : Type} (invoke : InvocationRequest → Nat → Except ε String)
    (json_loads : String → Except ε ρ) (req : InvocationRequest)
    (max_retries attempt : Nat) : Trace ε ρ :=
  if h : attempt < max_retries then
    match attempt_once invoke json_loads req attempt with
    | Except.ok result =>
      { attempts := 1, sent := [req], logs := [], sleeps := 0, outcome := Except.ok result }
    | Except.error e =>
      let rest := send_loop invoke json_loads req max_retries (attempt + 1)
      { attempts := rest.attempts + 1
        sent := req :: rest.sent
        logs := (attempt + 1, e) :: rest.logs
        sleeps := (if attempt + 1 < max_retries then 1 else 0) + rest.sleeps
        outcome := rest.outcome }
  else
    { attempts := 0, sent := [], logs := [], sleeps := 0
      outcome := Except.error "Failed to get response after maximum retries" }
termination_by max_retries - attempt
decreasing_by omega

/-- `send_prompt` from the source: render the conversation once, build the
request body, then run the retry loop from attempt 0.  A `KeyError` escaping
`format_messages` happens before the loop and propagates (outer
`Except.error`); otherwise the loop's trace is returned.  `continuation` is
accepted and unused, as in the source. -/
def send_prompt {ε ρ : Type} (invoke : InvocationRequest → Nat → Except ε String)
    (json_loads : String → Except ε ρ) (now : DateTime) (messages : List Message)
    (temperature : ℚ := 0.3) (max_tokens : Nat := 1000) (top_p : ℚ := 0.9)
    (continuation : Bool := false) (max_retries : Nat := 10) :
    Except String (Trace ε ρ) := do
  let frmt_input ← format_messages now messages
  let req : InvocationRequest :=
    { prompt := frmt_input, temperature := temperature
      max_gen_len := max_tokens, top_p := top_p }
  pure (send_loop invoke json_loads req max_retries 0)

/-- Relabel every logged error through `φ`, leaving everything else of a
trace unchanged.  Used to state that `send_prompt` never inspects the raised
error beyond logging it. -/
def traceMapErr {ε ε' ρ : Type} (φ : ε → ε') (t : Trace ε ρ) : Trace ε' ρ :=
  { attempts := t.attempts, sent := t.sent
    logs := t.logs.map fun q => (q.1, φ q.2)
    sleeps := t.sleeps, outcome := t.outcome }

/-- Number of (possibly overlapping) occurrences of `pat` in `s`, i.e. the
number of positions of `s` at which `pat` starts. -/
def countSubstr (pat : List Char) : List Char → Nat
  | [] => 0
  | c :: rest => (if pat <+: (c :: rest) then 1 else 0) + countSubstr pat rest

/-- The role-header marker of the Llama 3 template, as a character list. -/
def hdrL : List Char := "<|start_header_id|>".data

/-- The complete assistant open-header, as a character list. -/
def aOpenL : List Char := "<|start_header_id|>assistant<|end_header_id|>".data

/-- The end-of-turn marker, as a character list. -/
def eotL : List Char := "<|eot_id|>".data

/-- The begin-of-text marker, as a character list. -/
def botL : List Char := "<|begin_of_text|>".data

/-- The trailing open assistant header appended after the message blocks. -/
def trailerL : List Char := "<|start_header_id|>assistant<|end_header_id|>\n".data

/-- The text between a non-system role name and its content. -/
def roleCloseNnL : List Char := "<|end_header_id|>\n\n".data

/-- The text between the role name `system` and the rendered date. -/
def sysJoinL : List Char :=
  "<|end_header_id|>\n\nCutting Knowledge Date: December 2024\nToday Date: ".data

/-- The two newlines separating the date (or a role header) from content. -/
def nnL : List Char := "\n\n".data

/-- Everything between the system content and the user content in a
two-message conversation. -/
def sysToUserL : List Char := "<|eot_id|><|start_header_id|>user<|end_header_id|>\n\n".data

/-- Everything after the user content in a two-message conversation. -/
def userToAsstL : List Char :=
  "<|eot_id|><|start_header_id|>assistant<|end_header_id|>\n".data

/-- Everything before the rendered date in a conversation starting with a
system message. -/
def preDateL : List Char :=
  "<|begin_of_text|><|start_header_id|>system<|end_header_id|>\n\nCutting Knowledge Date: December 2024\nToday Date: ".data

/-- `alternatingUA expectUser msgs` holds when `msgs` alternates
user/assistant roles starting with user iff `expectUser`, every message
carrying content.  This is the conversation shape quantified over by the
spec's header-count property. -/
def alternatingUA : Bool → List Message → Bool
  | _, [] => true
  | b, m :: rest =>
    m.role = (if b then "user" else "assistant") && m.content.isSome && alternatingUA (!b) rest

/-- A concrete wall-clock instant used to exercise the definitions. -/
def dt0 : DateTime := ⟨2026, 10, 11, 9, 30, 0⟩

/-- A concrete well-formed conversation used to exercise the definitions. -/
def msgs0 : List Message := [⟨"system", some "You are helpful."⟩, ⟨"user", some "Hi"⟩]

/-- The prompt `format_messages` renders for `msgs0` at `dt0`. -/
def fmt0 : String :=
  "<|begin_of_text|><|start_header_id|>system<|end_header_id|>\n\nCutting Knowledge Date: December 2024\nToday Date: 11 Oct 2026\n\nYou are helpful.<|eot_id|><|start_header_id|>user<|end_header_id|>\n\nHi<|eot_id|><|start_header_id|>assistant<|end_header_id|>\n"

/-- A concrete endpoint that fails on every attempt (errors numbered by `Nat`). -/
def failInvoke : InvocationRequest → Nat → Except Nat String := fun _ _ => Except.error 0

/-- A concrete endpoint that fails on attempt 0 and succeeds from attempt 1 on. -/
def succInvoke : InvocationRequest → Nat → Except Nat String :=
  fun _ i => if i = 0 then Except.error 0 else Except.ok "body"

/-- A concrete decoder that always succeeds with payload `7`. -/
def okJson : String → Except Nat Nat := fun _ => Except.ok 7

/-- A concrete decoder that always fails. -/
def failJson : String → Except Nat Nat := fun _ => Except.error 0

/-! ### Behaviour of the retry loop -/

lemma send_loop_base {ε ρ : Type} (invoke : InvocationRequest → Nat → Except ε String)
    (json_loads : String → Except ε ρ) (req : InvocationRequest) {k a : Nat} (h : ¬ a < k) :
    send_loop invoke json_loads req k a =
      { attempts := 0, sent := [], logs := [], sleeps := 0
        outcome := Except.error "Failed to get response after maximum retries" } := by
  rw [send_loop, dif_neg h]

lemma send_loop_ok {ε ρ : Type} (invoke : InvocationRequest → Nat → Except ε String)
    (json_loads : String → Except ε ρ) (req : InvocationRequest) {k a : Nat} (h : a < k)
    {r : ρ} (hr : attempt_once invoke json_loads req a = Except.ok r) :
    send_loop invoke json_loads req k a =
      { attempts := 1, sent := [req], logs := [], sleeps := 0, outcome := Except.ok r } := by
  rw [send_loop, dif_pos h, hr]

lemma send_loop_fail {ε ρ : Type} (invoke : InvocationRequest → Nat → Except ε String)
    (json_loads : String → Except ε ρ) (req : InvocationRequest) {k a : Nat} (h : a < k)
    {e : ε} (he : attempt_once invoke json_loads req a = Except.error e) :
    send_loop invoke json_loads req k a =
      { attempts := (send_loop invoke json_loads req k (a + 1)).attempts + 1
        sent := req :: (send_loop invoke json_loads req k (a + 1)).sent
        logs := (a + 1, e) :: (send_loop invoke json_loads req k (a + 1)).logs
        sleeps := (if a + 1 < k then 1 else 0) + (send_loop invoke json_loads req k (a + 1)).sleeps
        outcome := (send_loop invoke json_loads req k (a + 1)).outcome } := by
  rw [send_loop, dif_pos h, he]

/-- If every attempt from `a` on fails, the loop performs all remaining
attempts, logs each of them, sleeps between consecutive attempts only, and
ends with the terminal error. -/
lemma send_loop_all_fail {ε ρ : Type} (invoke : InvocationRequest → Nat → Except ε String)
    (json_loads : String → Except ε ρ) (req : InvocationRequest) (e : Nat → ε) (k : Nat) :
    ∀ (n a : Nat), k - a = n →
      (∀ i, a ≤ i → i < k → attempt_once invoke json_loads req i = Except.error (e i)) →
      send_loop invoke json_loads req k a =
        { attempts := k - a
          sent := List.replicate (k - a) req
          logs := (List.range' a (k - a)).map fun i => (i + 1, e i)
          sleeps := k - a - 1
          outcome := Except.error "Failed to get response after maximum retries" } := by
  intro n
  induction n with
  | zero =>
    intro a hn _
    have h : ¬ a < k := by omega
    rw [send_loop_base invoke json_loads req h, hn]
    simp
  | succ m ih =>
    intro a hn hfail
    have h : a < k := by omega
    rw [send_loop_fail invoke json_loads req h (hfail a le_rfl h),
        ih (a + 1) (by omega) (fun i h1 h2 => hfail i (by omega) h2)]
    simp only [Trace.mk.injEq]
    refine ⟨by omega, ?_, ?_, ?_, trivial⟩
    · rw [show k - a = (k - (a + 1)) + 1 from by omega]
      simp [List.replicate_succ]
    · rw [show k - a = (k - (a + 1)) + 1 from by omega, List.range'_succ, List.map_cons]
    · split <;> omega

/-- If the attempts in `[a, s)` fail and attempt `s < k` succeeds with `r`,
the loop returns `r` after `s - a + 1` attempts, `s - a` failure logs and
`s - a` sleeps. -/
lemma send_loop_first_success {ε ρ : Type} (invoke : InvocationRequest → Nat → Except ε String)
    (json_loads : String → Except ε ρ) (req : InvocationRequest) (e : Nat → ε) (r : ρ) (k : Nat) :
    ∀ (n a s : Nat), s - a = n → a ≤ s → s < k →
      (∀ i, a ≤ i → i < s → attempt_once invoke json_loads req i = Except.error (e i)) →
      attempt_once invoke json_loads req s = Except.ok r →
      send_loop invoke json_loads req k a =
        { attempts := s - a + 1
          sent := List.replicate (s - a + 1) req
          logs := (List.range' a (s - a)).map fun i => (i + 1, e i)
          sleeps := s - a
          outcome := Except.ok r } := by
  intro n
  induction n with
  | zero =>
    intro a s hn has hsk _ hok
    have hsa : s = a := by omega
    subst hsa
    rw [send_loop_ok invoke json_loads req hsk hok, hn]
    simp
  | succ m ih =>
    intro a s hn has hsk hfail hok
    have h : a < k := by omega
    rw [send_loop_fail invoke json_loads req h (hfail a le_rfl (by omega)),
        ih (a + 1) s (by omega) (by omega) hsk (fun i h1 h2 => hfail i (by omega) h2) hok]
    simp only [Trace.mk.injEq]
    refine ⟨by omega, ?_, ?_, ?_, trivial⟩
    · rw [show s - a + 1 = (s - (a + 1) + 1) + 1 from by omega]
      simp [List.replicate_succ]
    · rw [show s - a = (s - (a + 1)) + 1 from by omega, List.range'_succ, List.map_cons]
    · rw [if_pos (show a + 1 < k from by omega)]
      omega

/-- Every request the loop ever sends is the single request it was given. -/
lemma send_loop_sent {ε ρ : Type} (invoke : InvocationRequest → Nat → Except ε String)
    (json_loads : String → Except ε ρ) (req : InvocationRequest) (k : Nat) :
    ∀ (n a : Nat), k - a = n →
      (send_loop invoke json_loads req k a).sent =
        List.replicate (send_loop invoke json_loads req k a).attempts req := by
  intro n
  induction n with
  | zero =>
    intro a hn
    rw [send_loop_base invoke json_loads req (by omega)]
    simp
  | succ m ih =>
    intro a hn
    have h : a < k := by omega
    cases hA : attempt_once invoke json_loads req a with
    | ok r => rw [send_loop_ok invoke json_loads req h hA]; rfl
    | error e =>
      rw [send_loop_fail invoke json_loads req h hA]
      simpa [List.replicate_succ] using ih (a + 1) (by omega)

/-- An error outcome happens only when the whole remaining budget was
consumed, and it is always the terminal retries-exhausted message. -/
lemma send_loop_outcome_error {ε ρ : Type} (invoke : InvocationRequest → Nat → Except ε String)
    (json_loads : String → Except ε ρ) (req : InvocationRequest) (k : Nat) :
    ∀ (n a : Nat), k - a = n → ∀ msg,
      (send_loop invoke json_loads req k a).outcome = Except.error msg →
      (send_loop invoke json_loads req k a).attempts = k - a ∧
        msg = "Failed to get response after maximum retries" := by
  intro n
  induction n with
  | zero =>
    intro a hn msg hmsg
    rw [send_loop_base invoke json_loads req (by omega)] at hmsg ⊢
    simp at hmsg
    simpa [hn] using hmsg.symm
  | succ m ih =>
    intro a hn msg hmsg
    have h : a < k := by omega
    cases hA : attempt_once invoke json_loads req a with
    | ok r => rw [send_loop_ok invoke json_loads req h hA] at hmsg; simp at hmsg
    | error e =>
      rw [send_loop_fail invoke json_loads req h hA] at hmsg ⊢
      have := ih (a + 1) (by omega) msg hmsg
      exact ⟨by simp [this.1]; omega, this.2⟩

/-- A successful outcome is the `json.loads`-decoded body of a successful
`invoke_model` response at some attempt within the budget. -/
lemma send_loop_outcome_ok {ε ρ : Type} (invoke : InvocationRequest → Nat → Except ε String)
    (json_loads : String → Except ε ρ) (req : InvocationRequest) (k : Nat) :
    ∀ (n a : Nat), k - a = n → ∀ r,
      (send_loop invoke json_loads req k a).outcome = Except.ok r →
      ∃ i b, a ≤ i ∧ i < k ∧ invoke req i = Except.ok b ∧ json_loads b = Except.ok r := by
  intro n
  induction n with
  | zero =>
    intro a hn r hr
    rw [send_loop_base invoke json_loads req (by omega)] at hr
    simp at hr
  | succ m ih =>
    intro a hn r hr
    have h : a < k := by omega
    cases hA : attempt_once invoke json_loads req a with
    | ok r' =>
      rw [send_loop_ok invoke json_loads req h hA] at hr
      simp at hr
      subst hr
      obtain ⟨b, hB, hJ⟩ : ∃ b, invoke req a = Except.ok b ∧ json_loads b = Except.ok r' := by
        unfold attempt_once at hA
        cases hB : invoke req a with
        | error e2 => rw [hB] at hA; cases hA
        | ok b => rw [hB] at hA; exact ⟨b, rfl, hA⟩
      exact ⟨a, b, le_rfl, h, hB, hJ⟩
    | error e =>
      rw [send_loop_fail invoke json_loads req h hA] at hr
      obtain ⟨i, b, hi1, hi2, hi3, hi4⟩ := ih (a + 1) (by omega) r hr
      exact ⟨i, b, by omega, hi2, hi3, hi4⟩

/-- Every failure encountered while the loop is still running is recorded in
the logs with its 1-based attempt number. -/
lemma send_loop_log_mem {ε ρ : Type} (invoke : InvocationRequest → Nat → Except ε String)
    (json_loads : String → Except ε ρ) (req : InvocationRequest) (e : Nat → ε) (ej : ε) (k : Nat) :
    ∀ (n a j : Nat), j - a = n → a ≤ j → j < k →
      (∀ i, a ≤ i → i < j → attempt_once invoke json_loads req i = Except.error (e i)) →
      attempt_once invoke json_loads req j = Except.error ej →
      (j + 1, ej) ∈ (send_loop invoke json_loads req k a).logs := by
  intro n
  induction n with
  | zero =>
    intro a j hn haj hjk _ hj
    have hja : j = a := by omega
    subst hja
    rw [send_loop_fail invoke json_loads req hjk hj]
    exact List.mem_cons_self _ _
  | succ m ih =>
    intro a j hn haj hjk hfail hj
    have h : a < k := by omega
    rw [send_loop_fail invoke json_loads req h (hfail a le_rfl (by omega))]
    exact List.mem_cons_of_mem _
      (ih (a + 1) j (by omega) (by omega) hjk (fun i h1 h2 => hfail i (by omega) h2) hj)

/-- Relabelling the errors raised by the environment relabels the logs and
changes nothing else: the loop never inspects the raised error. -/
lemma attempt_once_map_err {ε ε' ρ : Type} (φ : ε → ε')
    (invoke : InvocationRequest → Nat → Except ε String) (json_loads : String → Except ε ρ)
    (req : InvocationRequest) (i : Nat) :
    attempt_once (fun rq j => (invoke rq j).mapError φ)
        (fun b => (json_loads b).mapError φ) req i =
      (attempt_once invoke json_loads req i).mapError φ := by
  show ((invoke req i).mapError φ).bind (fun b => (json_loads b).mapError φ) =
    ((invoke req i).bind json_loads).mapError φ
  cases invoke req i with
  | error e => rfl
  | ok b => cases json_loads b with
    | error e => rfl
    | ok r => rfl

lemma send_loop_map_err {ε ε' ρ : Type} (φ : ε → ε')
    (invoke : InvocationRequest → Nat → Except ε String) (json_loads : String → Except ε ρ)
    (req : InvocationRequest) (k : Nat) :
    ∀ (n a : Nat), k - a = n →
      send_loop (fun rq j => (invoke rq j).mapError φ)
          (fun b => (json_loads b).mapError φ) req k a =
        traceMapErr φ (send_loop invoke json_loads req k a) := by
  intro n
  induction n with
  | zero =>
    intro a hn
    rw [send_loop_base _ _ req (by omega), send_loop_base invoke json_loads req (by omega)]
    rfl
  | succ m ih =>
    intro a hn
    have h : a < k := by omega
    cases hA : attempt_once invoke json_loads req a with
    | ok r =>
      have hA' : attempt_once (fun rq j => (invoke rq j).mapError φ)
          (fun b => (json_loads b).mapError φ) req a = Except.ok r := by
        rw [attempt_once_map_err, hA]; rfl
      rw [send_loop_ok _ _ req h hA', send_loop_ok invoke json_loads req h hA]
      rfl
    | error e =>
      have hA' : attempt_once (fun rq j => (invoke rq j).mapError φ)
          (fun b => (json_loads b).mapError φ) req a = Except.error (φ e) := by
        rw [attempt_once_map_err, hA]; rfl
      rw [send_loop_fail _ _ req h hA', send_loop_fail invoke json_loads req h hA,
          ih (a + 1) (by omega)]
      rfl

/-! ### Claims about `send_prompt` (C1, C2, C3, C8, C9) -/

/-- C1: For every retry budget `k ≥ 1`, if every invocation attempt fails,
then `send_prompt` called with `max_retries = k` performs exactly `k`
attempts, sleeps the fixed interval exactly `k - 1` times (never after the
final failed attempt), ends with the terminal retries-exhausted error, and
returns no partial result. -/
theorem C1_retry_exhaustion {ε ρ : Type} (invoke : InvocationRequest → Nat → Except ε String)
    (json_loads : String → Except ε ρ) (now : DateTime) (messages : List Message)
    (temperature : ℚ) (max_tokens : Nat) (top_p : ℚ) (continuation : Bool) (k : Nat)
    (hk : 1 ≤ k) (p : String) (hrender : format_messages now messages = Except.ok p)
    (e : Nat → ε)
    (hfail : ∀ i, attempt_once invoke json_loads
      ⟨p, temperature, max_tokens, top_p⟩ i = Except.error (e i)) :
    ∃ t, send_prompt invoke json_loads now messages temperature max_tokens top_p continuation k
        = Except.ok t
      ∧ t.attempts = k ∧ t.sleeps = k - 1
      ∧ t.outcome = Except.error "Failed to get response after maximum retries"
      ∧ ∀ r, t.outcome ≠ Except.ok r := by
  have hloop := send_loop_all_fail invoke json_loads ⟨p, temperature, max_tokens, top_p⟩ e k
    (k - 0) 0 rfl (fun i _ h2 => hfail i)
  refine ⟨send_loop invoke json_loads ⟨p, temperature, max_tokens, top_p⟩ k 0,
    by simp [send_prompt, hrender], ?_, ?_, ?_, ?_⟩
  · rw [hloop]
    simp
  · rw [hloop]
    simp
  · rw [hloop]
  · rw [hloop]
    simp

/-- Witness for C1: a concrete always-failing endpoint with budget 3. -/
theorem C1_retry_exhaustion_witness :
    ∃ t, send_prompt failInvoke failJson dt0 msgs0 0.3 1000 0.9 false 3 = Except.ok t
      ∧ t.attempts = 3 ∧ t.sleeps = 2
      ∧ t.outcome = Except.error "Failed to get response after maximum retries"
      ∧ ∀ r, t.outcome ≠ Except.ok r :=
  C1_retry_exhaustion failInvoke failJson dt0 msgs0 0.3 1000 0.9 false 3 (by norm_num) _ rfl
    (fun _ => 0) (fun i => rfl)

/-- C2: For `1 ≤ n ≤ k`, if the endpoint fails on attempts `1..n-1` and
succeeds on attempt `n`, `send_prompt` with `max_retries = k` returns the
decoded payload of the first successful attempt, after exactly `n` attempts
and `n - 1` recorded failure logs. -/
theorem C2_success_on_nth {ε ρ : Type} (invoke : InvocationRequest → Nat → Except ε String)
    (json_loads : String → Except ε ρ) (now : DateTime) (messages : List Message)
    (temperature : ℚ) (max_tokens : Nat) (top_p : ℚ) (continuation : Bool) (n k : Nat)
    (h1 : 1 ≤ n) (h2 : n ≤ k)
    (p : String) (hrender : format_messages now messages = Except.ok p)
    (e : Nat → ε) (r : ρ)
    (hfail : ∀ i, i < n - 1 → attempt_once invoke json_loads
      ⟨p, temperature, max_tokens, top_p⟩ i = Except.error (e i))
    (hsucc : attempt_once invoke json_loads
      ⟨p, temperature, max_tokens, top_p⟩ (n - 1) = Except.ok r) :
    ∃ t, send_prompt invoke json_loads now messages temperature max_tokens top_p continuation k
        = Except.ok t
      ∧ t.outcome = Except.ok r ∧ t.logs.length = n - 1 ∧ t.attempts = n := by
  have hloop := send_loop_first_success invoke json_loads ⟨p, temperature, max_tokens, top_p⟩
    e r k (n - 1 - 0) 0 (n - 1) rfl (by omega) (by omega)
    (fun i hi1 hi2 => hfail i hi2) hsucc
  refine ⟨send_loop invoke json_loads ⟨p, temperature, max_tokens, top_p⟩ k 0,
    by simp [send_prompt, hrender], ?_, ?_, ?_⟩
  · rw [hloop]
  · rw [hloop]
    simp
  · rw [hloop]
    simp
    omega

/-- Witness for C2: failure on attempt 1, success on attempt 2, budget 3. -/
theorem C2_success_on_nth_witness :
    ∃ t, send_prompt succInvoke okJson dt0 msgs0 0.3 1000 0.9 false 3 = Except.ok t
      ∧ t.outcome = Except.ok 7 ∧ t.logs.length = 1 ∧ t.attempts = 2 :=
  C2_success_on_nth succInvoke okJson dt0 msgs0 0.3 1000 0.9 false 2 3 (by norm_num)
    (by norm_num) _ rfl (fun _ => 0) 7
    (fun i hi => by
      have : i = 0 := by omega
      subst this
      rfl)
    rfl

/-- C3: Every exception class raised during an attempt is handled
identically: (1) relabelling the raised errors through any map `φ` relabels
only the logs of the result, so the control flow never depends on the error
class (no retryable/non-retryable distinction); (2) each failure occurring
while budget remains is swallowed and logged rather than propagated; (3) an
error reaches the caller only once all `k` attempts are exhausted, and it is
the terminal retries-exhausted error. -/
theorem C3_error_class_blind {ε ρ : Type} (invoke : InvocationRequest → Nat → Except ε String)
    (json_loads : String → Except ε ρ) (now : DateTime) (messages : List Message)
    (temperature : ℚ) (max_tokens : Nat) (top_p : ℚ) (continuation : Bool) (k : Nat)
    (p : String) (hrender : format_messages now messages = Except.ok p) :
    (∀ (ε' : Type) (φ : ε → ε'),
      send_prompt (fun rq j => (invoke rq j).mapError φ) (fun b => (json_loads b).mapError φ)
          now messages temperature max_tokens top_p continuation k
        = (send_prompt invoke json_loads now messages temperature max_tokens top_p
            continuation k).map (traceMapErr φ))
    ∧ (∀ (e : Nat → ε) (ej : ε) (j : Nat), j < k →
        (∀ i, i < j → attempt_once invoke json_loads
          ⟨p, temperature, max_tokens, top_p⟩ i = Except.error (e i)) →
        attempt_once invoke json_loads ⟨p, temperature, max_tokens, top_p⟩ j = Except.error ej →
        ∃ t, send_prompt invoke json_loads now messages temperature max_tokens top_p
            continuation k = Except.ok t
          ∧ (j + 1, ej) ∈ t.logs)
    ∧ (∀ t msg, send_prompt invoke json_loads now messages temperature max_tokens top_p
          continuation k = Except.ok t →
        t.outcome = Except.error msg →
        t.attempts = k ∧ msg = "Failed to get response after maximum retries") := by
  refine ⟨?_, ?_, ?_⟩
  · intro ε' φ
    simp [send_prompt, hrender]
    rw [send_loop_map_err φ invoke json_loads ⟨p, temperature, max_tokens, top_p⟩ k (k - 0) 0 rfl]
    rfl
  · intro e ej j hj hfail hejh
    refine ⟨send_loop invoke json_loads ⟨p, temperature, max_tokens, top_p⟩ k 0,
      by simp [send_prompt, hrender], ?_⟩
    exact send_loop_log_mem invoke json_loads ⟨p, temperature, max_tokens, top_p⟩ e ej k
      (j - 0) 0 j rfl (by omega) hj (fun i h1 h2 => hfail i h2) hejh
  · intro t msg hsend houtcome
    have ht : send_loop invoke json_loads ⟨p, temperature, max_tokens, top_p⟩ k 0 = t := by
      simpa [send_prompt, hrender] using hsend
    subst ht
    have := send_loop_outcome_error invoke json_loads ⟨p, temperature, max_tokens, top_p⟩ k
      (k - 0) 0 rfl msg houtcome
    simpa using this

/-- Witness for C3 at a concrete conversation, endpoint and budget. -/
theorem C3_error_class_blind_witness :
    (∀ (ε' : Type) (φ : Nat → ε'),
      send_prompt (fun rq j => (failInvoke rq j).mapError φ) (fun b => (failJson b).mapError φ)
          dt0 msgs0 0.3 1000 0.9 false 3
        = (send_prompt failInvoke failJson dt0 msgs0 0.3 1000 0.9 false 3).map (traceMapErr φ))
    ∧ (∀ (e : Nat → Nat) (ej : Nat) (j : Nat), j < 3 →
        (∀ i, i < j → attempt_once failInvoke failJson
          ⟨fmt0, 0.3, 1000, 0.9⟩ i = Except.error (e i)) →
        attempt_once failInvoke failJson ⟨fmt0, 0.3, 1000, 0.9⟩ j = Except.error ej →
        ∃ t, send_prompt failInvoke failJson dt0 msgs0 0.3 1000 0.9 false 3 = Except.ok t
          ∧ (j + 1, ej) ∈ t.logs)
    ∧ (∀ t msg, send_prompt failInvoke failJson dt0 msgs0 0.3 1000 0.9 false 3 = Except.ok t →
        t.outcome = Except.error msg →
        t.attempts = 3 ∧ msg = "Failed to get response after maximum retries") :=
  C3_error_class_blind failInvoke failJson dt0 msgs0 0.3 1000 0.9 false 3 fmt0 rfl

/-- C8: the request body sent to the endpoint is exactly the four documented
fields — the rendered prompt plus the caller's generation parameters — and a
successful result is the decoded JSON body of a successful invocation. -/
theorem C8_request_shape {ε ρ : Type} (invoke : InvocationRequest → Nat → Except ε String)
    (json_loads : String → Except ε ρ) (now : DateTime) (messages : List Message)
    (temperature : ℚ) (max_tokens : Nat) (top_p : ℚ) (continuation : Bool) (k : Nat)
    (p : String) (hrender : format_messages now messages = Except.ok p) :
    ∃ t, send_prompt invoke json_loads now messages temperature max_tokens top_p continuation k
        = Except.ok t
      ∧ (∀ rq ∈ t.sent, rq = { prompt := p, temperature := temperature,
                                max_gen_len := max_tokens, top_p := top_p })
      ∧ (∀ r, t.outcome = Except.ok r →
          ∃ i b, invoke ⟨p, temperature, max_tokens, top_p⟩ i = Except.ok b
            ∧ json_loads b = Except.ok r) := by
  refine ⟨send_loop invoke json_loads ⟨p, temperature, max_tokens, top_p⟩ k 0,
    by simp [send_prompt, hrender], ?_, ?_⟩
  · intro rq hrq
    rw [send_loop_sent invoke json_loads ⟨p, temperature, max_tokens, top_p⟩ k (k - 0) 0 rfl]
      at hrq
    exact List.eq_of_mem_replicate hrq
  · intro r hr
    obtain ⟨i, b, _, _, h3, h4⟩ := send_loop_outcome_ok invoke json_loads
      ⟨p, temperature, max_tokens, top_p⟩ k (k - 0) 0 rfl r hr
    exact ⟨i, b, h3, h4⟩

/-- Witness for C8 at a concrete conversation, endpoint and budget. -/
theorem C8_request_shape_witness :
    ∃ t, send_prompt succInvoke okJson dt0 msgs0 0.3 1000 0.9 false 3 = Except.ok t
      ∧ (∀ rq ∈ t.sent, rq = { prompt := fmt0, temperature := 0.3,
                                max_gen_len := 1000, top_p := 0.9 })
      ∧ (∀ r, t.outcome = Except.ok r →
          ∃ i b, succInvoke ⟨fmt0, 0.3, 1000, 0.9⟩ i = Except.ok b
            ∧ okJson b = Except.ok r) :=
  C8_request_shape succInvoke okJson dt0 msgs0 0.3 1000 0.9 false 3 fmt0 rfl

/-- C9: the conversation is rendered exactly once, before the first attempt,
and every attempt of the retry loop sends the identical request body built
from that single render — the date preamble is fixed at call time. -/
theorem C9_renders_once {ε ρ : Type} (invoke : InvocationRequest → Nat → Except ε String)
    (json_loads : String → Except ε ρ) (now : DateTime) (messages : List Message)
    (temperature : ℚ) (max_tokens : Nat) (top_p : ℚ) (continuation : Bool) (k : Nat)
    (p : String) (hrender : format_messages now messages = Except.ok p) :
    ∃ t, send_prompt invoke json_loads now messages temperature max_tokens top_p continuation k
        = Except.ok t
      ∧ t.sent = List.replicate t.attempts
          { prompt := p, temperature := temperature
            max_gen_len := max_tokens, top_p := top_p } :=
  ⟨send_loop invoke json_loads ⟨p, temperature, max_tokens, top_p⟩ k 0,
    by simp [send_prompt, hrender],
    send_loop_sent invoke json_loads ⟨p, temperature, max_tokens, top_p⟩ k (k - 0) 0 rfl⟩

/-- Witness for C9 at a concrete conversation, endpoint and budget. -/
theorem C9_renders_once_witness :
    ∃ t, send_prompt failInvoke failJson dt0 msgs0 0.3 1000 0.9 false 2 = Except.ok t
      ∧ t.sent = List.replicate t.attempts
          { prompt := fmt0, temperature := 0.3, max_gen_len := 1000, top_p := 0.9 } :=
  C9_renders_once failInvoke failJson dt0 msgs0 0.3 1000 0.9 false 2 fmt0 rfl

/-! ### Renderer claims C6, C7, C10 -/

/-- Any message that carries content renders to a block without raising. -/
lemma render_entry_ok (now : DateTime) (m : Message) (hm : m.content.isSome = true) :
    ∃ pc, render_entry now m = Except.ok pc := by
  obtain ⟨c, hc⟩ := Option.isSome_iff_exists.mp hm
  unfold render_entry
  by_cases hr : m.role = "system"
  · rw [if_pos hr, hc]
    exact ⟨_, rfl⟩
  · rw [if_neg hr]
    by_cases h2 : m.role ≠ "system" ∧ m.content.isSome
    · rw [if_pos h2]
      exact ⟨_, rfl⟩
    · rw [if_neg h2]
      exact ⟨_, rfl⟩

/-- A list of content-carrying messages renders to a body without raising. -/
lemma render_messages_ok (now : DateTime) :
    ∀ ms : List Message, (∀ m ∈ ms, m.content.isSome = true) →
      ∃ b, render_messages now ms = Except.ok b := by
  intro ms
  induction ms with
  | nil => exact fun _ => ⟨"", rfl⟩
  | cons m rest ih =>
    intro h
    obtain ⟨b, hb⟩ := ih fun x hx => h x (List.mem_cons_of_mem m hx)
    obtain ⟨pc, hpc⟩ := render_entry_ok now m (h m (List.mem_cons_self m rest))
    refine ⟨pc ++ b, ?_⟩
    unfold render_messages
    rw [hpc, hb]
    rfl

/-- C6: the rendered prompt is a pure function of the conversation and the
calendar date: two wall-clock instants on the same calendar day render every
conversation byte-identically. -/
theorem C6_same_day_deterministic (t1 t2 : DateTime) (messages : List Message)
    (hy : t1.year = t2.year) (hm : t1.month = t2.month) (hd : t1.day = t2.day) :
    format_messages t1 messages = format_messages t2 messages := by
  have hs : strftime_d_b_Y t1 = strftime_d_b_Y t2 := by
    unfold strftime_d_b_Y
    rw [hy, hm, hd]
  have hp : system_preamble t1 = system_preamble t2 := by
    unfold system_preamble
    rw [hs]
  have he : ∀ m, render_entry t1 m = render_entry t2 m := by
    intro m
    unfold render_entry
    rw [hp]
  have hr : ∀ ms, render_messages t1 ms = render_messages t2 ms := by
    intro ms
    induction ms with
    | nil => rfl
    | cons m rest ih =>
      unfold render_messages
      rw [he m, ih]
  unfold format_messages
  rw [hr]

/-- Witness for C6: morning and a second before midnight of 11 Oct 2026. -/
theorem C6_same_day_deterministic_witness :
    (⟨2026, 10, 11, 9, 30, 0⟩ : DateTime).year = (⟨2026, 10, 11, 23, 59, 59⟩ : DateTime).year
    ∧ format_messages ⟨2026, 10, 11, 9, 30, 0⟩ msgs0
        = format_messages ⟨2026, 10, 11, 23, 59, 59⟩ msgs0 :=
  ⟨rfl, C6_same_day_deterministic ⟨2026, 10, 11, 9, 30, 0⟩ ⟨2026, 10, 11, 23, 59, 59⟩ msgs0
    rfl rfl rfl⟩

/-- C7: the renderer validates nothing: for every list of content-carrying
messages — whatever the role values and their ordering, including illegal
roles, a non-leading system message, non-alternating roles, or a final
message not from the user — `format_messages` raises no error and returns a
(possibly malformed) string. -/
theorem C7_no_validation (now : DateTime) (messages : List Message)
    (hc : ∀ m ∈ messages, m.content.isSome = true) :
    ∃ s, format_messages now messages = Except.ok s := by
  obtain ⟨b, hb⟩ := render_messages_ok now messages hc
  refine ⟨"<|begin_of_text|>" ++ b ++ "<|start_header_id|>assistant<|end_header_id|>\n", ?_⟩
  unfold format_messages
  rw [hb]
  rfl

/-- Witness for C7: an illegal role, a repeated user turn, a trailing system
message and a final assistant message are all accepted. -/
theorem C7_no_validation_witness :
    (∀ m ∈ ([⟨"banana", some "x"⟩, ⟨"user", some "y"⟩, ⟨"user", some "z"⟩,
        ⟨"system", some "w"⟩, ⟨"assistant", some "v"⟩] : List Message),
      m.content.isSome = true)
    ∧ ∃ s, format_messages dt0 [⟨"banana", some "x"⟩, ⟨"user", some "y"⟩,
        ⟨"user", some "z"⟩, ⟨"system", some "w"⟩, ⟨"assistant", some "v"⟩] = Except.ok s :=
  ⟨by decide, C7_no_validation dt0 _ (by decide)⟩

/-- C10: the empty conversation renders, without error, to exactly the
begin-of-text marker followed by the trailing open assistant header, even
though the data model declares conversations non-empty. -/
theorem C10_empty_conversation (now : DateTime) :
    format_messages now [] =
      Except.ok "<|begin_of_text|><|start_header_id|>assistant<|end_header_id|>\n" := by
  rfl

/-! ### Counting occurrences of a marker, and splitting counts across appends -/

lemma countSubstr_cons (pat : List Char) (c : Char) (s : List Char) :
    countSubstr pat (c :: s) = (if pat <+: (c :: s) then 1 else 0) + countSubstr pat s := rfl

/-- Master splitting lemma: when no occurrence of `pat` straddles the
boundary of `a ++ b` (no split of `pat` into a nonempty suffix of `a`
followed by a nonempty starting segment of `b`), the count splits. -/
lemma countSubstr_append_split (pat : List Char) :
    ∀ (a b : List Char),
      (∀ p1 p2, pat = p1 ++ p2 → p1 ≠ [] → p2 ≠ [] → p1 <:+ a → p2 <+: b → False) →
      countSubstr pat (a ++ b) = countSubstr pat a + countSubstr pat b := by
  intro a
  induction a with
  | nil =>
    intro b _
    simp [countSubstr]
  | cons c a' ih =>
    intro b h
    rw [List.cons_append, countSubstr_cons, countSubstr_cons pat c a',
        ih b fun p1 p2 hp hp1 hp2 hs hpre =>
          h p1 p2 hp hp1 hp2 (hs.trans (List.suffix_cons c a')) hpre]
    have hiff : (pat <+: c :: (a' ++ b)) ↔ (pat <+: c :: a') := by
      constructor
      · intro hpc
        by_cases hl : pat.length ≤ (c :: a').length
        · exact List.prefix_of_prefix_length_le (by simpa using hpc)
            (List.prefix_append _ _) hl
        · exfalso
          have h2 : (c :: a') <+: pat :=
            List.prefix_of_prefix_length_le (List.prefix_append _ _)
              (by simpa using hpc) (by omega)
          obtain ⟨p2, hp2⟩ := h2
          have hplen : pat.length = (c :: a').length + p2.length := by
            rw [← hp2]
            simp only [List.cons_append, List.length_append, List.length_cons]
            omega
          have hp2ne : p2 ≠ [] := by
            intro hnil
            rw [hnil] at hplen
            simp at hplen hl
            omega
          have hpre2 : p2 <+: b := by
            have hx : (c :: a') ++ p2 <+: (c :: a') ++ b := by
              rw [hp2]
              simpa using hpc
            exact (List.prefix_append_right_inj (c :: a')).mp hx
          exact h (c :: a') p2 hp2.symm (by simp) hp2ne (List.suffix_refl _) hpre2
      · intro hpc
        have hx : (c :: a') <+: (c :: a') ++ b := List.prefix_append _ _
        simpa using hpc.trans hx
    rw [if_congr hiff rfl rfl]
    omega

/-- Safe boundary: the first character of `b` never heads a proper tail of
`pat`. -/
lemma countSubstr_append_headOf (pat a b : List Char) (ch : Char) (hb : b.head? = some ch)
    (hp : ∀ i, i < pat.length → 0 < i → (pat.drop i).head? ≠ some ch) :
    countSubstr pat (a ++ b) = countSubstr pat a + countSubstr pat b := by
  apply countSubstr_append_split
  intro p1 p2 hsp hp1 hp2 hs hpre
  have hdrop : pat.drop p1.length = p2 := by
    rw [hsp]
    exact List.drop_left p1 p2
  have h1 : 0 < p1.length := List.length_pos.mpr hp1
  have h2 : 0 < p2.length := List.length_pos.mpr hp2
  have hpl : pat.length = p1.length + p2.length := by
    rw [hsp]
    simp
  have hhead : p2.head? = some ch := by
    obtain ⟨t, ht⟩ := hpre
    rw [← ht, List.head?_append] at hb
    cases hh : p2.head? with
    | none =>
      exact absurd (List.head?_eq_none_iff.mp hh) hp2
    | some x =>
      rw [hh] at hb
      simpa using hb
  exact hp p1.length (by omega) h1 (by rw [hdrop]; exact hhead)

/-- Safe boundary: the last character of `a` never ends a proper starting
segment of `pat`. -/
lemma countSubstr_append_lastOf (pat a b : List Char) (ch : Char) (ha : a.getLast? = some ch)
    (hp : ∀ i, i < pat.length → 0 < i → (pat.take i).getLast? ≠ some ch) :
    countSubstr pat (a ++ b) = countSubstr pat a + countSubstr pat b := by
  apply countSubstr_append_split
  intro p1 p2 hsp hp1 hp2 hs hpre
  have htake : pat.take p1.length = p1 := by
    rw [hsp]
    exact List.take_left p1 p2
  have h1 : 0 < p1.length := List.length_pos.mpr hp1
  have h2 : 0 < p2.length := List.length_pos.mpr hp2
  have hpl : pat.length = p1.length + p2.length := by
    rw [hsp]
    simp
  have hlast : p1.getLast? = some ch := by
    obtain ⟨t, ht⟩ := hs
    rw [← ht, List.getLast?_append] at ha
    cases hh : p1.getLast? with
    | none =>
      exact absurd (List.getLast?_eq_none_iff.mp hh) hp1
    | some x =>
      rw [hh] at ha
      simpa using ha
  exact hp p1.length (by omega) h1 (by rw [htake]; exact hlast)

/-- Safe boundary: `b` starts with a concrete fragment at least as long as
`pat` minus one, and no proper tail of `pat` starts the fragment. -/
lemma countSubstr_append_fragRight (pat a bfrag brest : List Char)
    (hlen : pat.length ≤ bfrag.length + 1)
    (hp : ∀ i, i < pat.length → 0 < i → ¬ (pat.drop i) <+: bfrag) :
    countSubstr pat (a ++ (bfrag ++ brest)) =
      countSubstr pat a + countSubstr pat (bfrag ++ brest) := by
  apply countSubstr_append_split
  intro p1 p2 hsp hp1 hp2 hs hpre
  have hdrop : pat.drop p1.length = p2 := by
    rw [hsp]
    exact List.drop_left p1 p2
  have h1 : 0 < p1.length := List.length_pos.mpr hp1
  have h2 : 0 < p2.length := List.length_pos.mpr hp2
  have hpl : pat.length = p1.length + p2.length := by
    rw [hsp]
    simp
  have hfrag : p2 <+: bfrag :=
    List.prefix_of_prefix_length_le hpre (List.prefix_append _ _) (by omega)
  exact hp p1.length (by omega) h1 (by rw [hdrop]; exact hfrag)

/-- Safe boundary: `a` ends with a concrete fragment at least as long as
`pat` minus one, and no proper starting segment of `pat` ends the fragment. -/
lemma countSubstr_append_fragLeft (pat arest afrag b : List Char)
    (hlen : pat.length ≤ afrag.length + 1)
    (hp : ∀ i, i < pat.length → 0 < i → ¬ (pat.take i) <:+ afrag) :
    countSubstr pat ((arest ++ afrag) ++ b) =
      countSubstr pat (arest ++ afrag) + countSubstr pat b := by
  apply countSubstr_append_split
  intro p1 p2 hsp hp1 hp2 hs hpre
  have htake : pat.take p1.length = p1 := by
    rw [hsp]
    exact List.take_left p1 p2
  have h1 : 0 < p1.length := List.length_pos.mpr hp1
  have h2 : 0 < p2.length := List.length_pos.mpr hp2
  have hpl : pat.length = p1.length + p2.length := by
    rw [hsp]
    simp
  have hfrag : p1 <:+ afrag :=
    List.suffix_of_suffix_length_le hs (List.suffix_append _ _) (by omega)
  exact hp p1.length (by omega) h1 (by rw [htake]; exact hfrag)

/-- A marker whose first character does not occur in `s` does not occur in
`s` at all. -/
lemma countSubstr_eq_zero (pat : List Char) (c : Char) (hc : pat.head? = some c) :
    ∀ s : List Char, c ∉ s → countSubstr pat s = 0 := by
  intro s
  induction s with
  | nil => intro _; rfl
  | cons d rest ih =>
    intro hmem
    have hnot : ¬ pat <+: d :: rest := by
      intro hpre
      cases pat with
      | nil => simp at hc
      | cons pc pt =>
        have hpc : pc = c := by simpa using hc
        have hpd : pc = d := (List.cons_prefix_cons.mp hpre).1
        exact hmem (by rw [← hpd, hpc]; exact List.mem_cons_self _ _)
    rw [countSubstr_cons, if_neg hnot,
        ih fun hm => hmem (List.mem_cons_of_mem d hm)]

lemma countSubstr_le_cons (pat : List Char) (c : Char) (s : List Char) :
    countSubstr pat s ≤ countSubstr pat (c :: s) := by
  rw [countSubstr_cons]
  omega

/-- A visible occurrence makes the count positive. -/
lemma countSubstr_pos (pat : List Char) (hne : pat ≠ []) :
    ∀ (q r s : List Char), s = q ++ (pat ++ r) → 1 ≤ countSubstr pat s := by
  intro q
  induction q with
  | nil =>
    intro r s hs
    subst hs
    cases pat with
    | nil => exact absurd rfl hne
    | cons pc pt =>
      rw [List.nil_append, List.cons_append, countSubstr_cons, if_pos]
      · omega
      · rw [← List.cons_append]
        exact List.prefix_append _ _
  | cons c q' ih =>
    intro r s hs
    subst hs
    rw [List.cons_append]
    calc 1 ≤ countSubstr pat (q' ++ (pat ++ r)) := ih r _ rfl
      _ ≤ countSubstr pat (c :: (q' ++ (pat ++ r))) := countSubstr_le_cons pat c _

/-- Two occurrences at different positions make the count at least two. -/
lemma countSubstr_two (pat : List Char) (hne : pat ≠ []) :
    ∀ (q1 r1 q2 r2 s : List Char), s = q1 ++ (pat ++ r1) → s = q2 ++ (pat ++ r2) →
      q1.length < q2.length → 2 ≤ countSubstr pat s := by
  intro q1
  induction q1 with
  | nil =>
    intro r1 q2 r2 s h1 h2 hlt
    subst h1
    cases pat with
    | nil => exact absurd rfl hne
    | cons pc pt =>
      cases q2 with
      | nil => simp at hlt
      | cons c2 q2' =>
        rw [List.nil_append] at h2
        rw [List.cons_append, List.cons_append] at h2
        injection h2 with hh ht
        rw [List.nil_append, List.cons_append, countSubstr_cons, if_pos]
        · have hrec : 1 ≤ countSubstr (pc :: pt) (pt ++ r1) :=
            countSubstr_pos (pc :: pt) hne q2' r2 _ ht
          omega
        · rw [← List.cons_append]
          exact List.prefix_append _ _
  | cons c1 q1' ih =>
    intro r1 q2 r2 s h1 h2 hlt
    subst h1
    cases q2 with
    | nil => simp at hlt
    | cons c2 q2' =>
      rw [List.cons_append, List.cons_append] at h2
      injection h2 with hh ht
      rw [List.cons_append, countSubstr_cons]
      have hrec := ih r1 q2' r2 _ rfl ht (by simp at hlt; omega)
      omega

/-- When the count is exactly one, the decomposition around the single
occurrence is unique. -/
lemma countSubstr_unique (pat : List Char) (hne : pat ≠ []) (s q1 r1 q2 r2 : List Char)
    (hcount : countSubstr pat s = 1)
    (h1 : s = q1 ++ (pat ++ r1)) (h2 : s = q2 ++ (pat ++ r2)) : q1 = q2 ∧ r1 = r2 := by
  have hlen : q1.length = q2.length := by
    by_contra hne2
    rcases Nat.lt_or_ge q1.length q2.length with hx | hx
    · have := countSubstr_two pat hne q1 r1 q2 r2 s h1 h2 hx
      omega
    · have hy : q2.length < q1.length := by omega
      have := countSubstr_two pat hne q2 r2 q1 r1 s h2 h1 hy
      omega
  obtain ⟨hq, hr⟩ := List.append_inj (h1.symm.trans h2) hlen
  exact ⟨hq, List.append_cancel_left hr⟩

/-! ### No template marker hides inside the date string -/

lemma decChar_ne_lt (n : Nat) : decChar n ≠ '<' := by
  have h1 : decChar n = decChar (n % 10) := by
    unfold decChar
    congr 1
    omega
  have h2 : ∀ k, k < 10 → decChar k ≠ '<' := by decide
  rw [h1]
  exact h2 (n % 10) (Nat.mod_lt n (by norm_num))

lemma natDecimalAux_chars : ∀ fuel n c, c ∈ natDecimalAux fuel n → ∃ m, c = decChar m := by
  intro fuel
  induction fuel with
  | zero =>
    intro n c hc
    simp [natDecimalAux] at hc
  | succ f ih =>
    intro n c hc
    unfold natDecimalAux at hc
    by_cases h : n < 10
    · rw [if_pos h] at hc
      simp at hc
      exact ⟨n, hc⟩
    · rw [if_neg h] at hc
      rcases List.mem_append.mp hc with h1 | h1
      · exact ih (n / 10) c h1
      · simp at h1
        exact ⟨n, h1⟩

lemma month_abbrev_no_lt (m : Nat) : '<' ∉ (month_abbrev m).data := by
  unfold month_abbrev
  split <;> decide

lemma strftime_no_lt (t : DateTime) : '<' ∉ (strftime_d_b_Y t).data := by
  unfold strftime_d_b_Y
  simp only [String.data_append]
  intro hmem
  simp only [List.mem_append] at hmem
  rcases hmem with (((h | h) | h) | h) | h
  · simp only [two_digit] at h
    rcases List.mem_cons.mp h with h1 | h1
    · exact decChar_ne_lt _ h1.symm
    · rcases List.mem_cons.mp h1 with h2 | h2
      · exact decChar_ne_lt _ h2.symm
      · simp at h2
  · exact absurd h (by decide)
  · exact month_abbrev_no_lt t.month h
  · exact absurd h (by decide)
  · obtain ⟨m, hm⟩ := natDecimalAux_chars (t.year + 1) t.year '<' h
    exact decChar_ne_lt m hm.symm

/-- Safe boundary with a fully concrete left list: no proper starting
segment of `pat` is a suffix of `a`. -/
lemma countSubstr_append_concreteLeft (pat a b : List Char)
    (hp : ∀ i, i < pat.length → 0 < i → ¬ (pat.take i) <:+ a) :
    countSubstr pat (a ++ b) = countSubstr pat a + countSubstr pat b := by
  apply countSubstr_append_split
  intro p1 p2 hsp hp1 hp2 hs hpre
  have htake : pat.take p1.length = p1 := by
    rw [hsp]
    exact List.take_left p1 p2
  have h1 : 0 < p1.length := List.length_pos.mpr hp1
  have h2 : 0 < p2.length := List.length_pos.mpr hp2
  have hpl : pat.length = p1.length + p2.length := by
    rw [hsp]
    simp
  exact hp p1.length (by omega) h1 (by rw [htake]; exact hs)

/-- Safe boundary with a fully concrete right list: no proper tail of `pat`
is a starting segment of `b`. -/
lemma countSubstr_append_concreteRight (pat a b : List Char)
    (hp : ∀ i, i < pat.length → 0 < i → ¬ (pat.drop i) <+: b) :
    countSubstr pat (a ++ b) = countSubstr pat a + countSubstr pat b := by
  apply countSubstr_append_split
  intro p1 p2 hsp hp1 hp2 hs hpre
  have hdrop : pat.drop p1.length = p2 := by
    rw [hsp]
    exact List.drop_left p1 p2
  have h1 : 0 < p1.length := List.length_pos.mpr hp1
  have h2 : 0 < p2.length := List.length_pos.mpr hp2
  have hpl : pat.length = p1.length + p2.length := by
    rw [hsp]
    simp
  exact hp p1.length (by omega) h1 (by rw [hdrop]; exact hpre)

/-- Merging two adjacent concrete chunks of an append chain. -/
lemma append_merge {α : Type} (x y xy z : List α) (h : x ++ y = xy) :
    x ++ (y ++ z) = xy ++ z := by
  rw [← h, List.append_assoc]

lemma head?_append_left {α : Type} (l l' : List α) (c : α) (h : l.head? = some c) :
    (l ++ l').head? = some c := by
  rw [List.head?_append, h]
  rfl

/-! ### The character-level shape of rendered blocks -/

/-- Decomposition of a rendered non-system block with content. -/
lemma render_entry_data_nonsys (now : DateTime) (r c : String) (hr : ¬ r = "system") :
    ∃ pc, render_entry now ⟨r, some c⟩ = Except.ok pc ∧
      pc.data = "<|start_header_id|>".data ++ (r.data ++ (roleCloseNnL ++ (c.data ++ eotL))) := by
  unfold render_entry
  rw [if_neg hr, if_pos ⟨hr, rfl⟩]
  refine ⟨_, rfl, ?_⟩
  simp only [String.data_append, List.append_assoc, Option.getD]
  rw [append_merge ("<|end_header_id|>".data) ("\n\n".data) roleCloseNnL _ (by decide)]
  rfl

/-- Decomposition of a rendered system block with content. -/
lemma render_entry_data_sys (now : DateTime) (c : String) :
    ∃ pc, render_entry now ⟨"system", some c⟩ = Except.ok pc ∧
      pc.data = "<|start_header_id|>".data ++ ("system".data ++ (sysJoinL ++
        ((strftime_d_b_Y now).data ++ (nnL ++ (c.data ++ eotL))))) := by
  unfold render_entry
  rw [if_pos rfl]
  refine ⟨_, rfl, ?_⟩
  unfold system_preamble
  simp only [String.data_append, List.append_assoc]
  rw [append_merge ("<|end_header_id|>".data)
    ("\n\nCutting Knowledge Date: December 2024\nToday Date: ".data) sysJoinL _ (by decide)]
  rfl

/-! ### Counting role-header markers in rendered blocks -/

lemma hdr_drop_ne_lt : ∀ i, i < hdrL.length → 0 < i → (hdrL.drop i).head? ≠ some '<' := by
  decide

lemma hdr_drop_ne_nl : ∀ i, i < hdrL.length → 0 < i → (hdrL.drop i).head? ≠ some '\n' := by
  decide

/-- A rendered user/assistant block contains exactly one role-header marker
when its content contains none. -/
lemma count_hdr_piece_nonsys (r c : String) (hr : r = "user" ∨ r = "assistant")
    (hc : countSubstr hdrL c.data = 0) :
    countSubstr hdrL
      ("<|start_header_id|>".data ++ (r.data ++ (roleCloseNnL ++ (c.data ++ eotL)))) = 1 := by
  rw [countSubstr_append_concreteLeft hdrL ("<|start_header_id|>".data) _ (by decide)]
  rw [countSubstr_append_headOf hdrL r.data _ '<'
    (head?_append_left _ _ _ (by decide)) hdr_drop_ne_lt]
  rw [countSubstr_append_concreteLeft hdrL roleCloseNnL _ (by decide)]
  rw [countSubstr_append_headOf hdrL c.data eotL '<' (by decide) hdr_drop_ne_lt]
  rw [hc]
  have h1 : countSubstr hdrL ("<|start_header_id|>".data) = 1 := by decide
  have h2 : countSubstr hdrL roleCloseNnL = 0 := by decide
  have h3 : countSubstr hdrL eotL = 0 := by decide
  have h4 : countSubstr hdrL r.data = 0 := by
    rcases hr with h | h <;> rw [h] <;> decide
  omega

/-- A rendered system block contains exactly one role-header marker when its
content contains none. -/
lemma count_hdr_piece_sys (now : DateTime) (c : String)
    (hc : countSubstr hdrL c.data = 0) :
    countSubstr hdrL
      ("<|start_header_id|>".data ++ ("system".data ++ (sysJoinL ++
        ((strftime_d_b_Y now).data ++ (nnL ++ (c.data ++ eotL)))))) = 1 := by
  rw [countSubstr_append_concreteLeft hdrL ("<|start_header_id|>".data) _ (by decide)]
  rw [countSubstr_append_headOf hdrL ("system".data) _ '<'
    (head?_append_left _ _ _ (by decide)) hdr_drop_ne_lt]
  rw [countSubstr_append_concreteLeft hdrL sysJoinL _ (by decide)]
  rw [countSubstr_append_headOf hdrL ((strftime_d_b_Y now).data) _ '\n'
    (head?_append_left _ _ _ (by decide)) hdr_drop_ne_nl]
  rw [countSubstr_append_concreteLeft hdrL nnL _ (by decide)]
  rw [countSubstr_append_headOf hdrL c.data eotL '<' (by decide) hdr_drop_ne_lt]
  rw [hc]
  have h1 : countSubstr hdrL ("<|start_header_id|>".data) = 1 := by decide
  have h2 : countSubstr hdrL ("system".data) = 0 := by decide
  have h3 : countSubstr hdrL sysJoinL = 0 := by decide
  have h4 : countSubstr hdrL nnL = 0 := by decide
  have h5 : countSubstr hdrL eotL = 0 := by decide
  have h6 : countSubstr hdrL ((strftime_d_b_Y now).data) = 0 :=
    countSubstr_eq_zero hdrL '<' (by decide) _ (strftime_no_lt now)
  omega

/-- Rendering an alternating user/assistant tail whose contents are free of
the role-header marker yields one marker per message, and the output starts
with the marker character when nonempty. -/
lemma render_messages_alt_count (now : DateTime) :
    ∀ (fl : Bool) (msgs : List Message), alternatingUA fl msgs = true →
      (∀ m ∈ msgs, countSubstr hdrL ((m.content.getD "").data) = 0) →
      ∃ b, render_messages now msgs = Except.ok b
        ∧ countSubstr hdrL b.data = msgs.length
        ∧ (b.data = [] ∨ b.data.head? = some '<') := by
  intro fl msgs
  induction msgs generalizing fl with
  | nil =>
    intro _ _
    exact ⟨"", rfl, rfl, Or.inl rfl⟩
  | cons m rest ih =>
    intro halt hfree
    simp only [alternatingUA, Bool.and_eq_true, decide_eq_true_eq] at halt
    obtain ⟨⟨hrole, hsome⟩, hrest⟩ := halt
    obtain ⟨c, hcm⟩ := Option.isSome_iff_exists.mp hsome
    obtain ⟨b, hb, hcount, hhead⟩ := ih (!fl) hrest
      fun x hx => hfree x (List.mem_cons_of_mem m hx)
    have hrne : ¬ m.role = "system" := by
      rw [hrole]
      cases fl <;> decide
    have hm : m = ⟨m.role, some c⟩ := by
      cases m
      simp at hcm ⊢
      exact hcm
    obtain ⟨pc, hpc, hdata⟩ := render_entry_data_nonsys now m.role c hrne
    have hcfree : countSubstr hdrL c.data = 0 := by
      have := hfree m (List.mem_cons_self m rest)
      rw [hcm] at this
      exact this
    refine ⟨pc ++ b, ?_, ?_, ?_⟩
    · unfold render_messages
      rw [hm] at hpc ⊢
      rw [hpc, hb]
      rfl
    · rw [String.data_append]
      have hsplit : countSubstr hdrL (pc.data ++ b.data)
          = countSubstr hdrL pc.data + countSubstr hdrL b.data := by
        rcases hhead with hnil | hhd
        · rw [hnil, List.append_nil]
          simp [countSubstr]
        · exact countSubstr_append_headOf hdrL pc.data b.data '<' hhd hdr_drop_ne_lt
      rw [hsplit, hcount, hdata]
      have hone : countSubstr hdrL
          ("<|start_header_id|>".data ++ (m.role.data ++ (roleCloseNnL ++ (c.data ++ eotL))))
          = 1 := by
        apply count_hdr_piece_nonsys m.role c _ hcfree
        rw [hrole]
        cases fl
        · exact Or.inr rfl
        · exact Or.inl rfl
      rw [hone]
      simp only [List.length_cons]
      omega
    · right
      rw [String.data_append, hdata]
      exact head?_append_left _ _ _ (head?_append_left _ _ _ (by decide))

/-! ### Claim C4: counting role headers -/

/-- C4 (amended): for a conversation of one system message followed by `N`
alternating user/assistant messages, all carrying content, and none of whose
contents contain the literal role-header marker `<|start_header_id|>`, the
number of role-header markers in the rendered output is `N + 2`: one for the
system block, one per alternating message, one for the trailing open
assistant header. -/
theorem C4_header_count (now : DateTime) (s : String) (msgs : List Message)
    (halt : alternatingUA true msgs = true)
    (hs : countSubstr hdrL s.data = 0)
    (hfree : ∀ m ∈ msgs, countSubstr hdrL ((m.content.getD "").data) = 0) :
    ∃ out, format_messages now (⟨"system", some s⟩ :: msgs) = Except.ok out
      ∧ countSubstr hdrL out.data = msgs.length + 2 := by
  obtain ⟨b, hb, hcount, hhead⟩ := render_messages_alt_count now true msgs halt hfree
  obtain ⟨pc, hpc, hdata⟩ := render_entry_data_sys now s
  have hbody : render_messages now (⟨"system", some s⟩ :: msgs) = Except.ok (pc ++ b) := by
    unfold render_messages
    rw [hpc, hb]
    rfl
  refine ⟨"<|begin_of_text|>" ++ (pc ++ b)
      ++ "<|start_header_id|>assistant<|end_header_id|>\n", ?_, ?_⟩
  · unfold format_messages
    rw [hbody]
    rfl
  · simp only [String.data_append]
    rw [countSubstr_append_headOf hdrL _
      ("<|start_header_id|>assistant<|end_header_id|>\n".data) '<' (by decide) hdr_drop_ne_lt]
    rw [countSubstr_append_concreteLeft hdrL ("<|begin_of_text|>".data) _ (by decide)]
    have hsplit : countSubstr hdrL (pc.data ++ b.data)
        = countSubstr hdrL pc.data + countSubstr hdrL b.data := by
      rcases hhead with hnil | hhd
      · rw [hnil, List.append_nil]
        simp [countSubstr]
      · exact countSubstr_append_headOf hdrL pc.data b.data '<' hhd hdr_drop_ne_lt
    rw [hsplit, hcount, hdata, count_hdr_piece_sys now s hs]
    have h1 : countSubstr hdrL ("<|begin_of_text|>".data) = 0 := by decide
    have h2 : countSubstr hdrL ("<|start_header_id|>assistant<|end_header_id|>\n".data) = 1 := by
      decide
    omega

/-- Witness for the amended C4 at a concrete one-turn conversation. -/
theorem C4_header_count_witness :
    alternatingUA true [⟨"user", some "Hi"⟩] = true
    ∧ ∃ out, format_messages dt0
        [⟨"system", some "You are helpful."⟩, ⟨"user", some "Hi"⟩] = Except.ok out
      ∧ countSubstr hdrL out.data = ([(⟨"user", some "Hi"⟩ : Message)]).length + 2 :=
  ⟨by decide, C4_header_count dt0 "You are helpful." [⟨"user", some "Hi"⟩]
    (by decide) (by decide) (by decide)⟩

set_option maxRecDepth 4000 in
set_option maxHeartbeats 1000000 in
/-- Counterexample to C4 as stated: with `N = 1` alternating message whose
content is itself the role-header marker, the rendered output contains `4`
markers, not `N + 2 = 3`. -/
theorem C4_header_count_cex :
    format_messages dt0 [⟨"system", some "s"⟩, ⟨"user", some "<|start_header_id|>"⟩]
      = Except.ok "<|begin_of_text|><|start_header_id|>system<|end_header_id|>\n\nCutting Knowledge Date: December 2024\nToday Date: 11 Oct 2026\n\ns<|eot_id|><|start_header_id|>user<|end_header_id|>\n\n<|start_header_id|><|eot_id|><|start_header_id|>assistant<|end_header_id|>\n"
    ∧ countSubstr hdrL
        ("<|begin_of_text|><|start_header_id|>system<|end_header_id|>\n\nCutting Knowledge Date: December 2024\nToday Date: 11 Oct 2026\n\ns<|eot_id|><|start_header_id|>user<|end_header_id|>\n\n<|start_header_id|><|eot_id|><|start_header_id|>assistant<|end_header_id|>\n").data
        = 4
    ∧ ([(⟨"user", some "<|start_header_id|>"⟩ : Message)]).length + 2 = 3 :=
  ⟨by decide, by decide, by decide⟩

/-! ### Claim C5: the single assistant open-header -/

set_option maxRecDepth 8000 in
/-- Character-level shape of the render of one system message followed by
one user message. -/
lemma format_two_data (now : DateTime) (s u : String) :
    ∃ out, format_messages now [⟨"system", some s⟩, ⟨"user", some u⟩] = Except.ok out
      ∧ out.data = preDateL ++ ((strftime_d_b_Y now).data ++ (nnL ++ (s.data ++
          (sysToUserL ++ (u.data ++ userToAsstL))))) := by
  obtain ⟨pc1, hpc1, hdata1⟩ := render_entry_data_sys now s
  obtain ⟨pc2, hpc2, hdata2⟩ := render_entry_data_nonsys now "user" u (by decide)
  have hbody : render_messages now [⟨"system", some s⟩, ⟨"user", some u⟩]
      = Except.ok (pc1 ++ (pc2 ++ "")) := by
    unfold render_messages render_messages render_messages
    rw [hpc1, hpc2]
    rfl
  refine ⟨"<|begin_of_text|>" ++ (pc1 ++ (pc2 ++ ""))
      ++ "<|start_header_id|>assistant<|end_header_id|>\n", ?_, ?_⟩
  · unfold format_messages
    rw [hbody]
    rfl
  · simp [String.data_append, hdata1, hdata2, List.append_assoc,
      preDateL, sysToUserL, userToAsstL, nnL, sysJoinL, roleCloseNnL, eotL]

set_option maxRecDepth 8000 in
/-- With contents free of the assistant open-header, the rendered two-message
conversation contains exactly one assistant open-header. -/
lemma count_aOpen_two (now : DateTime) (s u : String)
    (hs : countSubstr aOpenL s.data = 0) (hu : countSubstr aOpenL u.data = 0) :
    countSubstr aOpenL
      (preDateL ++ ((strftime_d_b_Y now).data ++ (nnL ++ (s.data ++
        (sysToUserL ++ (u.data ++ userToAsstL)))))) = 1 := by
  rw [countSubstr_append_concreteLeft aOpenL preDateL _ (by decide)]
  rw [countSubstr_append_headOf aOpenL ((strftime_d_b_Y now).data) _ '\n'
    (head?_append_left _ _ _ (by decide)) (by decide)]
  rw [countSubstr_append_concreteLeft aOpenL nnL _ (by decide)]
  rw [countSubstr_append_fragRight aOpenL s.data sysToUserL (u.data ++ userToAsstL)
    (by decide) (by decide)]
  rw [countSubstr_append_concreteLeft aOpenL sysToUserL _ (by decide)]
  rw [countSubstr_append_concreteRight aOpenL u.data userToAsstL (by decide)]
  rw [hs, hu]
  have h0 : countSubstr aOpenL ((strftime_d_b_Y now).data) = 0 :=
    countSubstr_eq_zero aOpenL '<' (by decide) _ (strftime_no_lt now)
  have h1 : countSubstr aOpenL preDateL = 0 := by decide
  have h2 : countSubstr aOpenL nnL = 0 := by decide
  have h3 : countSubstr aOpenL sysToUserL = 0 := by decide
  have h4 : countSubstr aOpenL userToAsstL = 1 := by decide
  omega

set_option maxRecDepth 8000 in
/-- C5 (amended): for every conversation of one system and one user message
whose contents do not contain the assistant open-header, the rendered prompt
contains exactly one assistant open-header, located at its very end and
followed only by a newline — so no close marker ever follows it; and for the
concrete conversation `[{system, "You are helpful."}, {user, "What is
2+2?"}]` the output ends with the open assistant header plus newline and
contains the user content immediately preceded by its role header. -/
theorem C5_single_assistant_header :
    (∀ (now : DateTime) (s u : String),
      countSubstr aOpenL s.data = 0 → countSubstr aOpenL u.data = 0 →
      ∃ out, format_messages now [⟨"system", some s⟩, ⟨"user", some u⟩] = Except.ok out
        ∧ countSubstr aOpenL out.data = 1
        ∧ (∃ p, out.data = p ++ (aOpenL ++ ['\n']))
        ∧ (∀ q r, out.data = q ++ (aOpenL ++ r) → r = ['\n']))
    ∧ (∀ now : DateTime,
      ∃ out, format_messages now [⟨"system", some "You are helpful."⟩,
          ⟨"user", some "What is 2+2?"⟩] = Except.ok out
        ∧ (∃ p, out.data = p ++ (aOpenL ++ ['\n']))
        ∧ (∃ a b, out.data
            = a ++ ("<|start_header_id|>user<|end_header_id|>\n\nWhat is 2+2?".data ++ b))) := by
  constructor
  · intro now s u hs hu
    obtain ⟨out, hout, hdata⟩ := format_two_data now s u
    have hend : out.data = (preDateL ++ ((strftime_d_b_Y now).data ++ (nnL ++ (s.data ++
        (sysToUserL ++ (u.data ++ eotL)))))) ++ (aOpenL ++ ['\n']) := by
      rw [hdata]
      simp [List.append_assoc, userToAsstL, eotL, aOpenL]
    have hcount : countSubstr aOpenL out.data = 1 := by
      rw [hdata]
      exact count_aOpen_two now s u hs hu
    refine ⟨out, hout, hcount, ⟨_, hend⟩, ?_⟩
    intro q r hqr
    exact (countSubstr_unique aOpenL (by decide) out.data q r _ (['\n'])
      hcount hqr hend).2
  · intro now
    obtain ⟨out, hout, hdata⟩ := format_two_data now "You are helpful." "What is 2+2?"
    refine ⟨out, hout,
      ⟨preDateL ++ ((strftime_d_b_Y now).data ++
        "\n\nYou are helpful.<|eot_id|><|start_header_id|>user<|end_header_id|>\n\nWhat is 2+2?<|eot_id|>".data), ?_⟩,
      ⟨preDateL ++ ((strftime_d_b_Y now).data ++ "\n\nYou are helpful.<|eot_id|>".data),
        "<|eot_id|><|start_header_id|>assistant<|end_header_id|>\n".data, ?_⟩⟩
    · rw [hdata]
      simp [List.append_assoc, nnL, sysToUserL, userToAsstL, aOpenL]
    · rw [hdata]
      simp [List.append_assoc, nnL, sysToUserL, userToAsstL]

set_option maxRecDepth 8000 in
/-- Witness for the amended C5 at the spec's own example conversation. -/
theorem C5_single_assistant_header_witness :
    countSubstr aOpenL ("You are helpful.".data) = 0
    ∧ countSubstr aOpenL ("What is 2+2?".data) = 0
    ∧ (∃ out, format_messages dt0 [⟨"system", some "You are helpful."⟩,
          ⟨"user", some "What is 2+2?"⟩] = Except.ok out
        ∧ countSubstr aOpenL out.data = 1
        ∧ (∃ p, out.data = p ++ (aOpenL ++ ['\n']))
        ∧ (∀ q r, out.data = q ++ (aOpenL ++ r) → r = ['\n'])) :=
  ⟨by decide, by decide,
    C5_single_assistant_header.1 dt0 "You are helpful." "What is 2+2?" (by decide) (by decide)⟩

set_option maxRecDepth 8000 in
set_option maxHeartbeats 1000000 in
/-- Counterexample to C5 as stated: a user content equal to the assistant
open-header makes the rendered prompt contain two assistant open-headers,
not exactly one. -/
theorem C5_single_assistant_header_cex :
    format_messages dt0 [⟨"system", some "s"⟩,
        ⟨"user", some "<|start_header_id|>assistant<|end_header_id|>"⟩]
      = Except.ok "<|begin_of_text|><|start_header_id|>system<|end_header_id|>\n\nCutting Knowledge Date: December 2024\nToday Date: 11 Oct 2026\n\ns<|eot_id|><|start_header_id|>user<|end_header_id|>\n\n<|start_header_id|>assistant<|end_header_id|><|eot_id|><|start_header_id|>assistant<|end_header_id|>\n"
    ∧ countSubstr aOpenL
        ("<|begin_of_text|><|start_header_id|>system<|end_header_id|>\n\nCutting Knowledge Date: December 2024\nToday Date: 11 Oct 2026\n\ns<|eot_id|><|start_header_id|>user<|end_header_id|>\n\n<|start_header_id|>assistant<|end_header_id|><|eot_id|><|start_header_id|>assistant<|end_header_id|>\n").data
        = 2 :=
  ⟨by decide, by decide⟩
